import Mathlib

/-!
Verification of the forkengine interpreter core (src/lib.rs) against its
specification.  The Rust `Runtime` struct and its methods are shallowly
embedded below: machine bytes (`u8`) are `Nat`s kept in range by the code's
own branch structure, `usize` values are `Nat`, and `Vec<u8>` is `List Nat`.
`Vec::capacity` is modelled as `List.length`: the source only grows the
vector through `reserve_exact(additional)` immediately followed by
`extend(vec![0; additional])`, so length and capacity coincide at every
observation point.

Rust panics (the `unwrap` of `chars().nth(..)` and out-of-bounds indexing
`memory[memory_pointer]`) are modelled explicitly as `Abort` values, and the
possibly non-terminating `run` loop takes a fuel parameter; exhausting the
fuel yields `Abort.fuelOut`.  Wall-clock timing (`time::precise_time_ns`) is
the one field of `RuntimeProduct` that is not modelled.
-/

set_option maxRecDepth 10000

namespace Forkengine

/-- Reasons the modelled program would panic or the fuel-indexed run loop
gives up: `charNth` is the `unwrap` of `instructions.chars().nth(..)`,
`memIndex` is an out-of-bounds `memory[memory_pointer]` access, and
`fuelOut` marks that the fuel ran out before the `while` loop finished. -/
inductive Abort where
  | charNth
  | memIndex
  | fuelOut
deriving DecidableEq

/-- `type RuntimeResult = Result<&'static str, &'static str>` -/
abbrev RuntimeResult := Except String String

/-- `struct RuntimeSnapshot` -/
structure RuntimeSnapshot where
  memory : List Nat
  memory_pointer : Nat
  instruction_pointer : Nat
  input_pointer : Nat
  output : List Nat
  is_error : Bool
  message : String
deriving DecidableEq

/-- `struct RuntimeProduct` (the `time` field is not modelled). -/
structure RuntimeProduct where
  snapshots : List RuntimeSnapshot
  output : List Nat
  executions : Nat
deriving DecidableEq

/-- `struct Runtime`.  `instructions` is the program text as a character
sequence; the Rust code measures the program with `String::len`, which is
the UTF-8 byte length, computed here by `utf8Len`. -/
structure Runtime where
  instructions : List Char
  instruction_pointer : Nat
  input : List Nat
  input_pointer : Nat
  memory : List Nat
  memory_pointer : Nat
  output : List Nat
  execution_limit : Nat
  memory_limit : Nat
deriving DecidableEq

/-- `String::len` of the program text: its UTF-8 byte length. -/
def utf8Len (instrs : List Char) : Nat :=
  instrs.foldl (fun acc c => acc + c.utf8Size) 0

/-- `RuntimeSnapshot::new`: copies the runtime state, trimming the memory to
`memory_pointer_max + 1` cells (`&runtime.memory[..(memory_pointer_max + 1)]`). -/
def RuntimeSnapshot.new (r : Runtime) (memory_pointer_max : Nat)
    (is_error : Bool) (message : String) : RuntimeSnapshot :=
  { memory := r.memory.take (memory_pointer_max + 1)
    memory_pointer := r.memory_pointer
    instruction_pointer := r.instruction_pointer
    input_pointer := r.input_pointer
    output := r.output
    is_error := is_error
    message := message }

/-- `Runtime::with_limits` -/
def Runtime.with_limits (instructions : List Char) (input : List Nat)
    (execution_limit memory_limit : Nat) : Runtime :=
  { instructions := instructions
    instruction_pointer := 0
    input := input
    input_pointer := 0
    memory := [0]
    memory_pointer := 0
    output := []
    execution_limit := execution_limit
    memory_limit := memory_limit }

/-- `Runtime::new`: forwards to `with_limits` with both limits 0 (infinite). -/
def Runtime.new (instructions : List Char) (input : List Nat) : Runtime :=
  Runtime.with_limits instructions input 0 0

/-- `Runtime::expand_memory`: request 50% of current capacity plus one more
cell, clamped to the remaining headroom when a nonzero `memory_limit` would
be exceeded; the new cells are zero-filled and the amount added is returned. -/
def Runtime.expand_memory (r : Runtime) : Runtime × Nat :=
  let additional := r.memory.length / 2 + 1
  let additional :=
    if r.memory_limit > 0 ∧ r.memory.length + additional > r.memory_limit then
      r.memory_limit - r.memory.length
    else additional
  ({ r with memory := r.memory ++ List.replicate additional 0 }, additional)

/-- `Runtime::next_input_byte` -/
def Runtime.next_input_byte (r : Runtime) : Nat × Runtime :=
  if h : r.input_pointer ≥ r.input.length then
    (255, r)
  else
    (r.input.get ⟨r.input_pointer, Nat.lt_of_not_le h⟩,
      { r with input_pointer := r.input_pointer + 1 })

/-- `Runtime::increment_pointer`: ensure capacity (growing if needed), then
advance `memory_pointer`; fails when growth is clamped to zero cells. -/
def Runtime.increment_pointer (r : Runtime) : Runtime × RuntimeResult :=
  if r.memory_pointer + 1 ≥ r.memory.length then
    match r.expand_memory with
    | (r', 0) =>
      (r', .error "failed to increment pointer (runtime memory limit exceeded)")
    | (r', _ + 1) =>
      ({ r' with memory_pointer := r'.memory_pointer + 1 }, .ok "incremented pointer by 1")
  else
    ({ r with memory_pointer := r.memory_pointer + 1 }, .ok "incremented pointer by 1")

/-- `Runtime::decrement_pointer` -/
def Runtime.decrement_pointer (r : Runtime) : Runtime × RuntimeResult :=
  if r.memory_pointer = 0 then
    (r, .error "can\x27t decrement pointer sub-0!")
  else
    ({ r with memory_pointer := r.memory_pointer - 1 }, .ok "decremented pointer by 1")

/-- `Runtime::increment_byte`: wraps 255 to 0 by an explicit branch. -/
def Runtime.increment_byte (r : Runtime) : Except Abort (Runtime × RuntimeResult) :=
  match r.memory.get? r.memory_pointer with
  | none => .error .memIndex
  | some b =>
    if b < 255 then
      .ok ({ r with memory := r.memory.set r.memory_pointer (b + 1) },
        .ok "incremented byte by 1")
    else
      .ok ({ r with memory := r.memory.set r.memory_pointer 0 },
        .ok "wrapped overflow byte back to 0x00")

/-- `Runtime::decrement_byte`: wraps 0 to 255 by an explicit branch. -/
def Runtime.decrement_byte (r : Runtime) : Except Abort (Runtime × RuntimeResult) :=
  match r.memory.get? r.memory_pointer with
  | none => .error .memIndex
  | some b =>
    if b > 0 then
      .ok ({ r with memory := r.memory.set r.memory_pointer (b - 1) },
        .ok "decremented byte by 1")
    else
      .ok ({ r with memory := r.memory.set r.memory_pointer 255 },
        .ok "wrapped overflow byte back to 0xFF")

/-- `Runtime::output_byte` -/
def Runtime.output_byte (r : Runtime) : Except Abort (Runtime × RuntimeResult) :=
  match r.memory.get? r.memory_pointer with
  | none => .error .memIndex
  | some b =>
    .ok ({ r with output := r.output ++ [b] }, .ok "copied byte from memory to output")

/-- `Runtime::input_byte`: `self.memory[self.memory_pointer] = self.next_input_byte()`
(the right-hand side runs first, then the indexed store, which panics when
the pointer is out of bounds). -/
def Runtime.input_byte (r : Runtime) : Except Abort (Runtime × RuntimeResult) :=
  if (r.next_input_byte).2.memory_pointer < (r.next_input_byte).2.memory.length then
    .ok ({ (r.next_input_byte).2 with
        memory := (r.next_input_byte).2.memory.set
          (r.next_input_byte).2.memory_pointer (r.next_input_byte).1 },
      .ok "copied byte from input to memory")
  else
    .error .memIndex

/-- The forward-seek loop inside `Runtime::handle_open_bracket`.  The Rust
loop first tests `(instruction_pointer + 1) >= instructions.len()`, then
increments the pointer and inspects the character there; `remaining` is
exactly `len - (ip + 1)`, so the bound test becomes the `0` pattern. -/
def seekForward (instrs : List Char) (open_count ip : Nat) :
    Nat → Except Abort (Nat × RuntimeResult)
  | 0 => .ok (ip, .error "hit end of instructions w/o finding matching close bracket!")
  | remaining + 1 =>
    match instrs.get? (ip + 1) with
    | none => .error .charNth
    | some c =>
      if c = '[' then
        seekForward instrs ((open_count + 1) % 65536) (ip + 1) remaining
      else if c = ']' then
        if open_count > 0 then
          seekForward instrs (open_count - 1) (ip + 1) remaining
        else
          .ok (ip + 1, .ok "found matching close bracket")
      else
        seekForward instrs open_count (ip + 1) remaining

/-- The backward-seek loop inside `Runtime::handle_close_bracket`.  The Rust
loop first tests `instruction_pointer <= 0`, then decrements the pointer and
inspects the character there, so recursion is on the pointer itself. -/
def seekBackward (instrs : List Char) (close_count : Nat) :
    Nat → Except Abort (Nat × RuntimeResult)
  | 0 => .ok (0, .error "hit beginning of instructions w/o finding matching open bracket!")
  | ip + 1 =>
    match instrs.get? ip with
    | none => .error .charNth
    | some c =>
      if c = ']' then
        seekBackward instrs ((close_count + 1) % 65536) ip
      else if c = '[' then
        if close_count > 0 then
          seekBackward instrs (close_count - 1) ip
        else
          .ok (ip, .ok "found matching open bracket")
      else
        seekBackward instrs close_count ip

/-- `Runtime::handle_open_bracket`: when the current cell is zero, scan
forward for the matching close bracket (the nesting counter is a `u16`,
hence the `% 65536`); otherwise do nothing. -/
def Runtime.handle_open_bracket (r : Runtime) : Except Abort (Runtime × RuntimeResult) :=
  match r.memory.get? r.memory_pointer with
  | none => .error .memIndex
  | some b =>
    if b = 0 then
      match seekForward r.instructions 0 r.instruction_pointer
          (utf8Len r.instructions - (r.instruction_pointer + 1)) with
      | .error a => .error a
      | .ok (ip', res) => .ok ({ r with instruction_pointer := ip' }, res)
    else
      .ok (r, .ok "byte is non-zero, no bracket seek necessary")

/-- `Runtime::handle_close_bracket`: when the current cell is nonzero, scan
backward for the matching open bracket; otherwise do nothing. -/
def Runtime.handle_close_bracket (r : Runtime) : Except Abort (Runtime × RuntimeResult) :=
  match r.memory.get? r.memory_pointer with
  | none => .error .memIndex
  | some b =>
    if b ≠ 0 then
      match seekBackward r.instructions 0 r.instruction_pointer with
      | .error a => .error a
      | .ok (ip', res) => .ok ({ r with instruction_pointer := ip' }, res)
    else
      .ok (r, .ok "byte is zero, no bracket seek necessary")

/-- The `match` on the current character in `Runtime::run`: dispatch to the
handler and return the updated runtime, the updated `memory_pointer_max`
(only the `>` arm raises it), and the handler outcome (`None` for an
unrecognized comment character). -/
def Runtime.dispatch (c : Char) (r : Runtime) (mpm : Nat) :
    Except Abort (Runtime × Nat × Option RuntimeResult) :=
  if c = '>' then
    .ok ((r.increment_pointer).1,
      if (r.increment_pointer).1.memory_pointer > mpm then
        (r.increment_pointer).1.memory_pointer
      else mpm,
      some (r.increment_pointer).2)
  else if c = '<' then
    .ok ((r.decrement_pointer).1, mpm, some (r.decrement_pointer).2)
  else if c = '+' then
    (r.increment_byte).map fun p => (p.1, mpm, some p.2)
  else if c = '-' then
    (r.decrement_byte).map fun p => (p.1, mpm, some p.2)
  else if c = '.' then
    (r.output_byte).map fun p => (p.1, mpm, some p.2)
  else if c = ',' then
    (r.input_byte).map fun p => (p.1, mpm, some p.2)
  else if c = '[' then
    (r.handle_open_bracket).map fun p => (p.1, mpm, some p.2)
  else if c = ']' then
    (r.handle_close_bracket).map fun p => (p.1, mpm, some p.2)
  else
    .ok (r, mpm, none)

/-- The `while` loop of `Runtime::run`, indexed by fuel.  Per iteration:
if the execution limit has been reached, push one synthetic error snapshot
and return with `executions = snapshots.len() - 1`; otherwise dispatch the
current character; a successful handler pushes an ok snapshot and advances
the instruction pointer, a failing handler pushes an error snapshot and
breaks (all errors are fatal), and an unrecognized character just advances. -/
def runAux : Nat → Runtime → List RuntimeSnapshot → Nat → Except Abort RuntimeProduct
  | 0, _, _, _ => .error .fuelOut
  | fuel + 1, r, snapshots, mpm =>
    if r.instruction_pointer < utf8Len r.instructions then
      if r.execution_limit > 0 ∧ snapshots.length ≥ r.execution_limit then
        .ok ⟨snapshots ++
            [RuntimeSnapshot.new r mpm true "execution terminated by engine (instruction limit exceeded)"],
          r.output,
          (snapshots ++
            [RuntimeSnapshot.new r mpm true "execution terminated by engine (instruction limit exceeded)"]).length - 1⟩
      else
        match r.instructions.get? r.instruction_pointer with
        | none => .error .charNth
        | some c =>
          match Runtime.dispatch c r mpm with
          | .error a => .error a
          | .ok (r', mpm', none) =>
            runAux fuel { r' with instruction_pointer := r'.instruction_pointer + 1 }
              snapshots mpm'
          | .ok (r', mpm', some (.ok msg)) =>
            runAux fuel { r' with instruction_pointer := r'.instruction_pointer + 1 }
              (snapshots ++ [RuntimeSnapshot.new r' mpm' false msg]) mpm'
          | .ok (r', mpm', some (.error msg)) =>
            .ok ⟨snapshots ++ [RuntimeSnapshot.new r' mpm' true msg], r'.output,
              (snapshots ++ [RuntimeSnapshot.new r' mpm' true msg]).length⟩
    else
      .ok ⟨snapshots, r.output, snapshots.length⟩

/-- `Runtime::run`, with fuel for the while loop. -/
def Runtime.run (fuel : Nat) (r : Runtime) : Except Abort RuntimeProduct :=
  runAux fuel r [] 0

/-! ## The echo program `,[.,]` -/

/-- The echo program of the spec's §8 test list. -/
def echoProg : List Char := [',', '[', '.', ',', ']']

/-- The state reached by the echo run each time control is back at the `.`
instruction after input has been exhausted: the cell holds the sentinel 255,
which is nonzero, so the loop never exits; only the output keeps growing. -/
def echoLoopState (o : List Nat) : Runtime :=
  { instructions := echoProg
    instruction_pointer := 2
    input := [65, 66]
    input_pointer := 2
    memory := [255]
    memory_pointer := 0
    output := o
    execution_limit := 0
    memory_limit := 0 }

lemma echo_loop_step (fuel : Nat) (o : List Nat) (snaps : List RuntimeSnapshot) (mpm : Nat) :
    ∃ snaps', runAux (fuel + 3) (echoLoopState o) snaps mpm =
      runAux fuel (echoLoopState (o ++ [255])) snaps' mpm :=
  ⟨_, rfl⟩

lemma echo_diverges_from_loop :
    ∀ (fuel : Nat) (o : List Nat) (snaps : List RuntimeSnapshot) (mpm : Nat),
      runAux fuel (echoLoopState o) snaps mpm = .error .fuelOut := by
  intro fuel
  induction fuel using Nat.strong_induction_on with
  | _ fuel ih =>
    match fuel with
    | 0 => intro o snaps mpm; rfl
    | 1 => intro o snaps mpm; rfl
    | 2 => intro o snaps mpm; rfl
    | fuel + 3 =>
      intro o snaps mpm
      obtain ⟨snaps', h⟩ := echo_loop_step fuel o snaps mpm
      rw [h]
      exact ih fuel (by omega) (o ++ [255]) snaps' mpm

lemma echo_prefix (fuel : Nat) :
    ∃ snaps', runAux (fuel + 8) (Runtime.new echoProg [65, 66]) [] 0 =
      runAux fuel (echoLoopState [65, 66]) snaps' 0 :=
  ⟨_, rfl⟩

/-- The echo run makes no progress toward termination: with any fuel it is
still inside the `while` loop. -/
lemma echo_run_fuelOut (fuel : Nat) :
    Runtime.run fuel (Runtime.new echoProg [65, 66]) = .error .fuelOut := by
  match fuel with
  | 0 | 1 | 2 | 3 | 4 | 5 | 6 | 7 => rfl
  | fuel + 8 =>
    obtain ⟨snaps', h⟩ := echo_prefix fuel
    show runAux (fuel + 8) (Runtime.new echoProg [65, 66]) [] 0 = .error .fuelOut
    rw [h]
    exact echo_diverges_from_loop fuel [65, 66] snaps' 0

/-- Claim C1 (counterexample): the claim states that the echo program
`,[.,]` on input `[65, 66]` terminates with output exactly `[65, 66, 255]`.
It is false: no amount of fuel completes the run, so no `RuntimeProduct`
with that output (or any other) is ever produced. -/
theorem C1_echo_counterexample :
    ¬ ∃ (fuel : Nat) (p : RuntimeProduct),
      Runtime.run fuel (Runtime.new echoProg [65, 66]) = .ok p ∧
        p.output = [65, 66, 255] := by
  rintro ⟨fuel, p, h, -⟩
  rw [echo_run_fuelOut fuel] at h
  exact Except.noConfusion h

/-- Claim C1 (amended): running the echo program `,[.,]` with input bytes
`[65, 66]` never terminates, because the sentinel 255 echoed into the cell
on input exhaustion is nonzero, so the close bracket always seeks back.
The output begins `[65, 66, 255]` and then keeps growing by further 255
bytes: capping the run at 12 executed instructions shows output
`[65, 66, 255, 255]`. -/
theorem C1_echo_diverges :
    (∀ fuel : Nat, Runtime.run fuel (Runtime.new echoProg [65, 66]) = .error .fuelOut) ∧
      ∃ p : RuntimeProduct,
        Runtime.run 20 (Runtime.with_limits echoProg [65, 66] 12 0) = .ok p ∧
          p.output = [65, 66, 255, 255] :=
  ⟨echo_run_fuelOut, ⟨_, rfl, rfl⟩⟩

/-- Claim C2: running `[+]` with the starting cell at 0 performs only the
open-bracket instruction, whose handler seeks directly to the matching close
bracket (the recorded snapshot has `instruction_pointer = 2`, the position
of `]`, which is then stepped past without further effect); the increment
is never executed and the cell stays 0 (trimmed memory `[0]`). -/
theorem C2_loop_skip_when_zero :
    Runtime.run 10 (Runtime.new ['[', '+', ']'] []) =
      .ok ⟨[⟨[0], 0, 2, 0, [], false, "found matching close bracket"⟩], [], 1⟩ ∧
    (Runtime.new ['[', '+', ']'] []).handle_open_bracket =
      .ok ({ Runtime.new ['[', '+', ']'] [] with instruction_pointer := 2 },
        .ok "found matching close bracket") :=
  ⟨rfl, rfl⟩

/-- Claim C3: whenever a nonzero execution limit has been reached by the
recorded snapshots while the instruction pointer is still in bounds, the run
appends exactly one synthetic `ExecutionLimitExceeded` error snapshot and
returns, reporting one execution fewer than the snapshot count; in
particular `execution_limit = 2` on five increments yields 2 ok snapshots,
1 limit snapshot and execution count 2. -/
theorem C3_execution_limit :
    (∀ (fuel : Nat) (r : Runtime) (snaps : List RuntimeSnapshot) (mpm : Nat),
        r.execution_limit > 0 → snaps.length ≥ r.execution_limit →
        r.instruction_pointer < utf8Len r.instructions →
        runAux (fuel + 1) r snaps mpm =
          .ok ⟨snaps ++ [RuntimeSnapshot.new r mpm true
              "execution terminated by engine (instruction limit exceeded)"],
            r.output, snaps.length⟩) ∧
    Runtime.run 10 (Runtime.with_limits ['+', '+', '+', '+', '+'] [] 2 0) =
      .ok ⟨[⟨[1], 0, 0, 0, [], false, "incremented byte by 1"⟩,
            ⟨[2], 0, 1, 0, [], false, "incremented byte by 1"⟩,
            ⟨[2], 0, 2, 0, [], true,
              "execution terminated by engine (instruction limit exceeded)"⟩],
        [], 2⟩ := by
  refine ⟨fun fuel r snaps mpm h1 h2 h3 => ?_, rfl⟩
  simp only [runAux]
  rw [if_pos h3, if_pos ⟨h1, h2⟩]
  simp

theorem C3_execution_limit_witness :
    (Runtime.with_limits ['+'] [] 1 0).execution_limit > 0 ∧
    ([⟨[1], 0, 0, 0, [], false, "incremented byte by 1"⟩] :
        List RuntimeSnapshot).length ≥ (Runtime.with_limits ['+'] [] 1 0).execution_limit ∧
    (Runtime.with_limits ['+'] [] 1 0).instruction_pointer <
      utf8Len (Runtime.with_limits ['+'] [] 1 0).instructions ∧
    runAux 1 (Runtime.with_limits ['+'] [] 1 0)
        [⟨[1], 0, 0, 0, [], false, "incremented byte by 1"⟩] 0 =
      .ok ⟨[⟨[1], 0, 0, 0, [], false, "incremented byte by 1"⟩] ++
          [RuntimeSnapshot.new (Runtime.with_limits ['+'] [] 1 0) 0 true
            "execution terminated by engine (instruction limit exceeded)"],
        (Runtime.with_limits ['+'] [] 1 0).output, 1⟩ :=
  ⟨by decide, by decide, by decide,
    C3_execution_limit.1 0 (Runtime.with_limits ['+'] [] 1 0)
      [⟨[1], 0, 0, 0, [], false, "incremented byte by 1"⟩] 0
      (by decide) (by decide) (by decide)⟩

/-- Claim C4: memory growth requests half the current capacity plus one
cell, clamps that to the remaining headroom when a nonzero `memory_limit`
would be exceeded, zero-fills every added cell, and `increment_pointer`
fails exactly when the clamped amount is zero; with `memory_limit = 1` and
program `>` the run halts at once with the memory-limit error snapshot and
the tape still holds the single initial cell. -/
theorem C4_memory_growth :
    (∀ r : Runtime, (r.expand_memory).1.memory =
        r.memory ++ List.replicate (r.expand_memory).2 0) ∧
    (∀ r : Runtime, ¬(r.memory_limit > 0 ∧
          r.memory.length + (r.memory.length / 2 + 1) > r.memory_limit) →
        (r.expand_memory).2 = r.memory.length / 2 + 1) ∧
    (∀ r : Runtime, r.memory_limit > 0 →
        r.memory.length + (r.memory.length / 2 + 1) > r.memory_limit →
        (r.expand_memory).2 = r.memory_limit - r.memory.length) ∧
    (∀ r : Runtime, r.memory_pointer + 1 ≥ r.memory.length →
        ((∃ msg, (r.increment_pointer).2 = .error msg) ↔ (r.expand_memory).2 = 0)) ∧
    Runtime.run 5 (Runtime.with_limits ['>'] [] 0 1) =
      .ok ⟨[⟨[0], 0, 0, 0, [], true,
            "failed to increment pointer (runtime memory limit exceeded)"⟩], [], 1⟩ ∧
    ((Runtime.with_limits ['>'] [] 0 1).increment_pointer).1.memory = [0] := by
  refine ⟨fun r => rfl, fun r h => ?_, fun r h1 h2 => ?_, fun r h => ?_, rfl, rfl⟩
  · simp [Runtime.expand_memory, h]
  · simp [Runtime.expand_memory, h1, h2]
  · unfold Runtime.increment_pointer
    rw [if_pos h]
    rcases hE : r.expand_memory with ⟨r', n⟩
    cases n with
    | zero => simp
    | succ n => simp

theorem C4_memory_growth_witness :
    (Runtime.with_limits ['>'] [] 0 1).memory_pointer + 1 ≥
      (Runtime.with_limits ['>'] [] 0 1).memory.length ∧
    ((∃ msg, ((Runtime.with_limits ['>'] [] 0 1).increment_pointer).2 = .error msg) ↔
      ((Runtime.with_limits ['>'] [] 0 1).expand_memory).2 = 0) :=
  ⟨by decide, C4_memory_growth.2.2.2.1 _ (by decide)⟩

/-- Claim C5: `decrement_pointer` fails with the pointer-underflow error iff
the data pointer is 0, otherwise decrements it by one; running `<` from the
initial state yields exactly one snapshot, an error snapshot whose message
identifies the underflow, with empty output. -/
theorem C5_pointer_underflow :
    (∀ r : Runtime,
        ((r.decrement_pointer).2 = .error "can\x27t decrement pointer sub-0!" ↔
          r.memory_pointer = 0)) ∧
    (∀ r : Runtime, r.memory_pointer ≠ 0 →
        r.decrement_pointer =
          ({ r with memory_pointer := r.memory_pointer - 1 },
            .ok "decremented pointer by 1")) ∧
    Runtime.run 5 (Runtime.new ['<'] []) =
      .ok ⟨[⟨[0], 0, 0, 0, [], true, "can\x27t decrement pointer sub-0!"⟩], [], 1⟩ := by
  refine ⟨fun r => ?_, fun r h => ?_, rfl⟩
  · unfold Runtime.decrement_pointer
    split
    · rename_i h; simp [h]
    · rename_i h; simp [h]
  · unfold Runtime.decrement_pointer
    rw [if_neg h]

theorem C5_pointer_underflow_witness :
    (Runtime.mk ['<'] 0 [] 0 [0, 0] 1 [] 0 0).memory_pointer ≠ 0 ∧
    (Runtime.mk ['<'] 0 [] 0 [0, 0] 1 [] 0 0).decrement_pointer =
      ({ Runtime.mk ['<'] 0 [] 0 [0, 0] 1 [] 0 0 with memory_pointer := 0 },
        .ok "decremented pointer by 1") :=
  ⟨by decide, C5_pointer_underflow.2.1 _ (by decide)⟩

/-! ## Handler specification lemmas -/

lemma expand_memory_fields (r r' : Runtime) (n : Nat) (h : r.expand_memory = (r', n)) :
    r'.instructions = r.instructions ∧ r'.input_pointer = r.input_pointer ∧
    r'.input = r.input ∧ r'.memory_pointer = r.memory_pointer ∧
    r'.memory.length = r.memory.length + n := by
  have h1 : r' = (r.expand_memory).1 := by rw [h]
  have h2 : n = (r.expand_memory).2 := by rw [h]
  subst h1; subst h2
  refine ⟨rfl, rfl, rfl, rfl, ?_⟩
  simp [Runtime.expand_memory]

lemma increment_pointer_fields (r : Runtime) :
    (r.increment_pointer).1.instructions = r.instructions ∧
    (r.increment_pointer).1.input_pointer = r.input_pointer ∧
    (r.memory_pointer < r.memory.length →
      (r.increment_pointer).1.memory_pointer < (r.increment_pointer).1.memory.length) := by
  unfold Runtime.increment_pointer
  split
  · rename_i hge
    split
    · rename_i r' heq
      obtain ⟨f1, f2, f3, f4, f5⟩ := expand_memory_fields r r' 0 heq
      refine ⟨f1, f2, fun hlt => ?_⟩
      show r'.memory_pointer < r'.memory.length
      rw [f4, f5]; omega
    · rename_i r' m heq
      obtain ⟨f1, f2, f3, f4, f5⟩ := expand_memory_fields r r' (m + 1) heq
      refine ⟨f1, f2, fun hlt => ?_⟩
      show r'.memory_pointer + 1 < r'.memory.length
      rw [f4, f5]; omega
  · rename_i hlt2
    refine ⟨rfl, rfl, fun _ => ?_⟩
    show r.memory_pointer + 1 < r.memory.length
    omega

lemma decrement_pointer_fields (r : Runtime) :
    (r.decrement_pointer).1.instructions = r.instructions ∧
    (r.decrement_pointer).1.input_pointer = r.input_pointer ∧
    (r.memory_pointer < r.memory.length →
      (r.decrement_pointer).1.memory_pointer < (r.decrement_pointer).1.memory.length) := by
  unfold Runtime.decrement_pointer
  split
  · exact ⟨rfl, rfl, fun h => h⟩
  · refine ⟨rfl, rfl, fun h => ?_⟩
    show r.memory_pointer - 1 < r.memory.length
    omega

lemma next_input_byte_fields (r : Runtime) :
    (r.next_input_byte).2.instructions = r.instructions ∧
    (r.next_input_byte).2.memory = r.memory ∧
    (r.next_input_byte).2.memory_pointer = r.memory_pointer ∧
    r.input_pointer ≤ (r.next_input_byte).2.input_pointer := by
  unfold Runtime.next_input_byte
  split
  · exact ⟨rfl, rfl, rfl, le_refl _⟩
  · refine ⟨rfl, rfl, rfl, ?_⟩
    show r.input_pointer ≤ r.input_pointer + 1
    omega

lemma increment_byte_ok (r r' : Runtime) (res : RuntimeResult)
    (h : r.increment_byte = .ok (r', res)) :
    r'.instructions = r.instructions ∧ r'.input_pointer = r.input_pointer ∧
    r'.memory_pointer = r.memory_pointer ∧ r'.memory.length = r.memory.length ∧
    ∃ msg, res = Except.ok msg := by
  unfold Runtime.increment_byte at h
  split at h
  · exact absurd h (by simp)
  · split at h <;>
    · simp only [Except.ok.injEq, Prod.mk.injEq] at h
      obtain ⟨h1, h2⟩ := h
      subst h1; subst h2
      exact ⟨rfl, rfl, rfl, by simp, _, rfl⟩

lemma decrement_byte_ok (r r' : Runtime) (res : RuntimeResult)
    (h : r.decrement_byte = .ok (r', res)) :
    r'.instructions = r.instructions ∧ r'.input_pointer = r.input_pointer ∧
    r'.memory_pointer = r.memory_pointer ∧ r'.memory.length = r.memory.length ∧
    ∃ msg, res = Except.ok msg := by
  unfold Runtime.decrement_byte at h
  split at h
  · exact absurd h (by simp)
  · split at h <;>
    · simp only [Except.ok.injEq, Prod.mk.injEq] at h
      obtain ⟨h1, h2⟩ := h
      subst h1; subst h2
      exact ⟨rfl, rfl, rfl, by simp, _, rfl⟩

lemma output_byte_ok (r r' : Runtime) (res : RuntimeResult)
    (h : r.output_byte = .ok (r', res)) :
    r'.instructions = r.instructions ∧ r'.input_pointer = r.input_pointer ∧
    r'.memory_pointer = r.memory_pointer ∧ r'.memory.length = r.memory.length ∧
    ∃ msg, res = Except.ok msg := by
  unfold Runtime.output_byte at h
  split at h
  · exact absurd h (by simp)
  · simp only [Except.ok.injEq, Prod.mk.injEq] at h
    obtain ⟨h1, h2⟩ := h
    subst h1; subst h2
    exact ⟨rfl, rfl, rfl, rfl, _, rfl⟩

lemma input_byte_ok (r r' : Runtime) (res : RuntimeResult)
    (h : r.input_byte = .ok (r', res)) :
    r'.instructions = r.instructions ∧ r.input_pointer ≤ r'.input_pointer ∧
    r'.memory_pointer = r.memory_pointer ∧ r'.memory.length = r.memory.length ∧
    ∃ msg, res = Except.ok msg := by
  obtain ⟨f1, f2, f3, f4⟩ := next_input_byte_fields r
  unfold Runtime.input_byte at h
  split at h
  · simp only [Except.ok.injEq, Prod.mk.injEq] at h
    obtain ⟨h1, h2⟩ := h
    subst h1; subst h2
    refine ⟨f1, f4, f3, ?_, _, rfl⟩
    show ((r.next_input_byte).2.memory.set _ _).length = r.memory.length
    rw [List.length_set, f2]
  · exact absurd h (by simp)

lemma handle_open_bracket_ok (r r' : Runtime) (res : RuntimeResult)
    (h : r.handle_open_bracket = .ok (r', res)) :
    r'.instructions = r.instructions ∧ r'.input_pointer = r.input_pointer ∧
    r'.memory_pointer = r.memory_pointer ∧ r'.memory.length = r.memory.length := by
  unfold Runtime.handle_open_bracket at h
  split at h
  · exact absurd h (by simp)
  · split at h
    · split at h
      · exact absurd h (by simp)
      · simp only [Except.ok.injEq, Prod.mk.injEq] at h
        obtain ⟨h1, h2⟩ := h
        subst h1; subst h2
        exact ⟨rfl, rfl, rfl, rfl⟩
    · simp only [Except.ok.injEq, Prod.mk.injEq] at h
      obtain ⟨h1, h2⟩ := h
      subst h1; subst h2
      exact ⟨rfl, rfl, rfl, rfl⟩

lemma handle_close_bracket_ok (r r' : Runtime) (res : RuntimeResult)
    (h : r.handle_close_bracket = .ok (r', res)) :
    r'.instructions = r.instructions ∧ r'.input_pointer = r.input_pointer ∧
    r'.memory_pointer = r.memory_pointer ∧ r'.memory.length = r.memory.length := by
  unfold Runtime.handle_close_bracket at h
  split at h
  · exact absurd h (by simp)
  · split at h
    · split at h
      · exact absurd h (by simp)
      · simp only [Except.ok.injEq, Prod.mk.injEq] at h
        obtain ⟨h1, h2⟩ := h
        subst h1; subst h2
        exact ⟨rfl, rfl, rfl, rfl⟩
    · simp only [Except.ok.injEq, Prod.mk.injEq] at h
      obtain ⟨h1, h2⟩ := h
      subst h1; subst h2
      exact ⟨rfl, rfl, rfl, rfl⟩

/-! ## Seek and program-length lemmas -/

lemma seekForward_error_kind (instrs : List Char) :
    ∀ (rem open_count ip : Nat) (a : Abort),
      seekForward instrs open_count ip rem = .error a → a = .charNth := by
  intro rem
  induction rem with
  | zero => intro cnt ip a h; exact absurd h (by simp [seekForward])
  | succ k ih =>
    intro cnt ip a h
    rw [seekForward] at h
    split at h
    · injection h with h2
      exact h2.symm
    · split_ifs at h
      all_goals exact ih _ _ _ h

lemma seekBackward_error_kind (instrs : List Char) :
    ∀ (ip close_count : Nat) (a : Abort),
      seekBackward instrs close_count ip = .error a → a = .charNth := by
  intro ip
  induction ip with
  | zero => intro cnt a h; exact absurd h (by simp [seekBackward])
  | succ j ih =>
    intro cnt a h
    rw [seekBackward] at h
    split at h
    · injection h with h2
      exact h2.symm
    · split_ifs at h
      all_goals exact ih _ _ h

lemma seekForward_no_charNth (instrs : List Char) :
    ∀ (rem open_count ip : Nat), ip + rem < instrs.length ∨ rem = 0 →
      seekForward instrs open_count ip rem ≠ .error .charNth := by
  intro rem
  induction rem with
  | zero => intro cnt ip h; simp [seekForward]
  | succ k ih =>
    intro cnt ip h
    have hb : ip + 1 < instrs.length := by omega
    rw [seekForward]
    split
    · rename_i heq
      exact absurd (List.get?_eq_none.mp heq) (by omega)
    · rename_i c heq
      split_ifs
      · exact ih ((cnt + 1) % 65536) (ip + 1) (by omega)
      · exact ih (cnt - 1) (ip + 1) (by omega)
      · simp
      · exact ih cnt (ip + 1) (by omega)

lemma seekBackward_no_charNth (instrs : List Char) :
    ∀ (ip close_count : Nat), ip ≤ instrs.length →
      seekBackward instrs close_count ip ≠ .error .charNth := by
  intro ip
  induction ip with
  | zero => intro cnt h; simp [seekBackward]
  | succ j ih =>
    intro cnt h
    have hb : j < instrs.length := by omega
    rw [seekBackward]
    split
    · rename_i heq
      exact absurd (List.get?_eq_none.mp heq) (by omega)
    · rename_i c heq
      split_ifs
      · exact ih ((cnt + 1) % 65536) (by omega)
      · exact ih (cnt - 1) (by omega)
      · simp
      · exact ih cnt (by omega)

lemma utf8Len_shift (cs : List Char) :
    ∀ a : Nat, cs.foldl (fun x c => x + c.utf8Size) a = a + utf8Len cs := by
  induction cs with
  | nil => intro a; simp [utf8Len]
  | cons c cs ih =>
    intro a
    show cs.foldl (fun x c => x + c.utf8Size) (a + c.utf8Size) = a + utf8Len (c :: cs)
    have hr : utf8Len (c :: cs) = (0 + c.utf8Size) + utf8Len cs := by
      show cs.foldl (fun x c => x + c.utf8Size) (0 + c.utf8Size) = _
      rw [ih]
    rw [ih, hr]
    omega

lemma utf8Len_ascii (l : List Char) (h : ∀ c ∈ l, c.utf8Size = 1) :
    utf8Len l = l.length := by
  induction l with
  | nil => rfl
  | cons c cs ih =>
    have hc : c.utf8Size = 1 := h c (by simp)
    have hcons : utf8Len (c :: cs) = (0 + c.utf8Size) + utf8Len cs := by
      show cs.foldl (fun x c => x + c.utf8Size) (0 + c.utf8Size) = _
      rw [utf8Len_shift]
    rw [hcons, ih (fun d hd => h d (by simp [hd]))]
    simp [hc]
    omega

/-! ## Dispatch lemmas -/

lemma dispatch_ok (c : Char) (r : Runtime) (mpm : Nat) (r' : Runtime) (mpm' : Nat)
    (res : Option RuntimeResult) (h : Runtime.dispatch c r mpm = .ok (r', mpm', res)) :
    r'.instructions = r.instructions ∧ r.input_pointer ≤ r'.input_pointer ∧
    (r.memory_pointer < r.memory.length → r'.memory_pointer < r'.memory.length) := by
  unfold Runtime.dispatch at h
  split_ifs at h
  · -- c = '>', memory_pointer beyond the old high-water mark
    simp only [Except.ok.injEq, Prod.mk.injEq] at h
    obtain ⟨h1, h2, h3⟩ := h
    subst h1
    obtain ⟨f1, f2, f3⟩ := increment_pointer_fields r
    exact ⟨f1, le_of_eq f2.symm, f3⟩
  · -- c = '>', high-water mark unchanged
    simp only [Except.ok.injEq, Prod.mk.injEq] at h
    obtain ⟨h1, h2, h3⟩ := h
    subst h1
    obtain ⟨f1, f2, f3⟩ := increment_pointer_fields r
    exact ⟨f1, le_of_eq f2.symm, f3⟩
  · -- c = '<'
    simp only [Except.ok.injEq, Prod.mk.injEq] at h
    obtain ⟨h1, h2, h3⟩ := h
    subst h1
    obtain ⟨f1, f2, f3⟩ := decrement_pointer_fields r
    exact ⟨f1, le_of_eq f2.symm, f3⟩
  · -- c = '+'
    cases hib : r.increment_byte with
    | error a => rw [hib] at h; exact absurd h (by simp [Except.map])
    | ok pr =>
      rw [hib] at h
      simp only [Except.map, Except.ok.injEq, Prod.mk.injEq] at h
      obtain ⟨h1, h2, h3⟩ := h
      subst h1
      obtain ⟨g1, g2, g3, g4, g5⟩ := increment_byte_ok r pr.1 pr.2 hib
      exact ⟨g1, le_of_eq g2.symm, fun hlt => by rw [g3, g4]; exact hlt⟩
  · -- c = '-'
    cases hib : r.decrement_byte with
    | error a => rw [hib] at h; exact absurd h (by simp [Except.map])
    | ok pr =>
      rw [hib] at h
      simp only [Except.map, Except.ok.injEq, Prod.mk.injEq] at h
      obtain ⟨h1, h2, h3⟩ := h
      subst h1
      obtain ⟨g1, g2, g3, g4, g5⟩ := decrement_byte_ok r pr.1 pr.2 hib
      exact ⟨g1, le_of_eq g2.symm, fun hlt => by rw [g3, g4]; exact hlt⟩
  · -- c = '.'
    cases hib : r.output_byte with
    | error a => rw [hib] at h; exact absurd h (by simp [Except.map])
    | ok pr =>
      rw [hib] at h
      simp only [Except.map, Except.ok.injEq, Prod.mk.injEq] at h
      obtain ⟨h1, h2, h3⟩ := h
      subst h1
      obtain ⟨g1, g2, g3, g4, g5⟩ := output_byte_ok r pr.1 pr.2 hib
      exact ⟨g1, le_of_eq g2.symm, fun hlt => by rw [g3, g4]; exact hlt⟩
  · -- c = ','
    cases hib : r.input_byte with
    | error a => rw [hib] at h; exact absurd h (by simp [Except.map])
    | ok pr =>
      rw [hib] at h
      simp only [Except.map, Except.ok.injEq, Prod.mk.injEq] at h
      obtain ⟨h1, h2, h3⟩ := h
      subst h1
      obtain ⟨g1, g2, g3, g4, g5⟩ := input_byte_ok r pr.1 pr.2 hib
      exact ⟨g1, g2, fun hlt => by rw [g3, g4]; exact hlt⟩
  · -- c = '['
    cases hib : r.handle_open_bracket with
    | error a => rw [hib] at h; exact absurd h (by simp [Except.map])
    | ok pr =>
      rw [hib] at h
      simp only [Except.map, Except.ok.injEq, Prod.mk.injEq] at h
      obtain ⟨h1, h2, h3⟩ := h
      subst h1
      obtain ⟨g1, g2, g3, g4⟩ := handle_open_bracket_ok r pr.1 pr.2 hib
      exact ⟨g1, le_of_eq g2.symm, fun hlt => by rw [g3, g4]; exact hlt⟩
  · -- c = ']'
    cases hib : r.handle_close_bracket with
    | error a => rw [hib] at h; exact absurd h (by simp [Except.map])
    | ok pr =>
      rw [hib] at h
      simp only [Except.map, Except.ok.injEq, Prod.mk.injEq] at h
      obtain ⟨h1, h2, h3⟩ := h
      subst h1
      obtain ⟨g1, g2, g3, g4⟩ := handle_close_bracket_ok r pr.1 pr.2 hib
      exact ⟨g1, le_of_eq g2.symm, fun hlt => by rw [g3, g4]; exact hlt⟩
  · -- unrecognized character: no-op
    simp only [Except.ok.injEq, Prod.mk.injEq] at h
    obtain ⟨h1, h2, h3⟩ := h
    subst h1
    exact ⟨rfl, le_refl _, fun hlt => hlt⟩

/-! ## Handler panic analysis -/

lemma increment_byte_isOk (r : Runtime) (hinv : r.memory_pointer < r.memory.length) :
    ∃ pr, r.increment_byte = .ok pr := by
  unfold Runtime.increment_byte
  split
  · rename_i heq
    exact absurd (List.get?_eq_none.mp heq) (by omega)
  · split_ifs <;> exact ⟨_, rfl⟩

lemma decrement_byte_isOk (r : Runtime) (hinv : r.memory_pointer < r.memory.length) :
    ∃ pr, r.decrement_byte = .ok pr := by
  unfold Runtime.decrement_byte
  split
  · rename_i heq
    exact absurd (List.get?_eq_none.mp heq) (by omega)
  · split_ifs <;> exact ⟨_, rfl⟩

lemma output_byte_isOk (r : Runtime) (hinv : r.memory_pointer < r.memory.length) :
    ∃ pr, r.output_byte = .ok pr := by
  unfold Runtime.output_byte
  split
  · rename_i heq
    exact absurd (List.get?_eq_none.mp heq) (by omega)
  · exact ⟨_, rfl⟩

lemma input_byte_isOk (r : Runtime) (hinv : r.memory_pointer < r.memory.length) :
    ∃ pr, r.input_byte = .ok pr := by
  obtain ⟨f1, f2, f3, f4⟩ := next_input_byte_fields r
  have hc : (r.next_input_byte).2.memory_pointer < (r.next_input_byte).2.memory.length := by
    rw [f2, f3]; exact hinv
  unfold Runtime.input_byte
  rw [if_pos hc]
  exact ⟨_, rfl⟩

lemma handle_open_bracket_not_memIndex (r : Runtime)
    (hinv : r.memory_pointer < r.memory.length) :
    r.handle_open_bracket ≠ .error .memIndex := by
  unfold Runtime.handle_open_bracket
  split
  · rename_i heq
    exact absurd (List.get?_eq_none.mp heq) (by omega)
  · rename_i b heq
    split
    · split
      · rename_i a hseek
        have ha := seekForward_error_kind r.instructions _ _ _ _ hseek
        subst ha
        intro hcontra
        injection hcontra with h2
        exact Abort.noConfusion h2
      · simp
    · simp

lemma handle_close_bracket_not_memIndex (r : Runtime)
    (hinv : r.memory_pointer < r.memory.length) :
    r.handle_close_bracket ≠ .error .memIndex := by
  unfold Runtime.handle_close_bracket
  split
  · rename_i heq
    exact absurd (List.get?_eq_none.mp heq) (by omega)
  · rename_i b heq
    split
    · split
      · rename_i a hseek
        have ha := seekBackward_error_kind r.instructions _ _ _ hseek
        subst ha
        intro hcontra
        injection hcontra with h2
        exact Abort.noConfusion h2
      · simp
    · simp

lemma increment_byte_error_kind (r : Runtime) (a : Abort)
    (h : r.increment_byte = .error a) : a = .memIndex := by
  unfold Runtime.increment_byte at h
  split at h
  · injection h with h2
    exact h2.symm
  · split at h
    · exact Except.noConfusion h
    · exact Except.noConfusion h

lemma decrement_byte_error_kind (r : Runtime) (a : Abort)
    (h : r.decrement_byte = .error a) : a = .memIndex := by
  unfold Runtime.decrement_byte at h
  split at h
  · injection h with h2
    exact h2.symm
  · split at h
    · exact Except.noConfusion h
    · exact Except.noConfusion h

lemma output_byte_error_kind (r : Runtime) (a : Abort)
    (h : r.output_byte = .error a) : a = .memIndex := by
  unfold Runtime.output_byte at h
  split at h
  · injection h with h2
    exact h2.symm
  · exact Except.noConfusion h

lemma input_byte_error_kind (r : Runtime) (a : Abort)
    (h : r.input_byte = .error a) : a = .memIndex := by
  unfold Runtime.input_byte at h
  split at h
  · exact Except.noConfusion h
  · injection h with h2
    exact h2.symm

lemma handle_open_bracket_not_charNth (r : Runtime)
    (hlen : utf8Len r.instructions ≤ r.instructions.length)
    (hip : r.instruction_pointer < r.instructions.length) :
    r.handle_open_bracket ≠ .error .charNth := by
  unfold Runtime.handle_open_bracket
  split
  · intro hcontra
    injection hcontra with h2
    exact Abort.noConfusion h2
  · rename_i b heq
    split
    · split
      · rename_i a hseek
        have ha := seekForward_error_kind r.instructions _ _ _ _ hseek
        subst ha
        exact absurd hseek (seekForward_no_charNth r.instructions _ _ _ (by omega))
      · simp
    · simp

lemma handle_close_bracket_not_charNth (r : Runtime)
    (hip : r.instruction_pointer < r.instructions.length) :
    r.handle_close_bracket ≠ .error .charNth := by
  unfold Runtime.handle_close_bracket
  split
  · intro hcontra
    injection hcontra with h2
    exact Abort.noConfusion h2
  · rename_i b heq
    split
    · split
      · rename_i a hseek
        have ha := seekBackward_error_kind r.instructions _ _ _ hseek
        subst ha
        exact absurd hseek (seekBackward_no_charNth r.instructions _ _ (by omega))
      · simp
    · simp

lemma dispatch_not_memIndex (c : Char) (r : Runtime) (mpm : Nat)
    (hinv : r.memory_pointer < r.memory.length) :
    Runtime.dispatch c r mpm ≠ .error .memIndex := by
  unfold Runtime.dispatch
  split_ifs
  · simp
  · simp
  · simp
  · obtain ⟨pr, hpr⟩ := increment_byte_isOk r hinv
    rw [hpr]; simp [Except.map]
  · obtain ⟨pr, hpr⟩ := decrement_byte_isOk r hinv
    rw [hpr]; simp [Except.map]
  · obtain ⟨pr, hpr⟩ := output_byte_isOk r hinv
    rw [hpr]; simp [Except.map]
  · obtain ⟨pr, hpr⟩ := input_byte_isOk r hinv
    rw [hpr]; simp [Except.map]
  · cases hob : r.handle_open_bracket with
    | error a =>
      have hne := handle_open_bracket_not_memIndex r hinv
      rw [hob] at hne
      simpa [Except.map] using hne
    | ok pr => simp [Except.map]
  · cases hob : r.handle_close_bracket with
    | error a =>
      have hne := handle_close_bracket_not_memIndex r hinv
      rw [hob] at hne
      simpa [Except.map] using hne
    | ok pr => simp [Except.map]
  · simp

lemma dispatch_not_charNth (c : Char) (r : Runtime) (mpm : Nat)
    (hlen : utf8Len r.instructions ≤ r.instructions.length)
    (hip : r.instruction_pointer < r.instructions.length) :
    Runtime.dispatch c r mpm ≠ .error .charNth := by
  unfold Runtime.dispatch
  split_ifs
  · simp
  · simp
  · simp
  · cases hib : r.increment_byte with
    | error a =>
      have := increment_byte_error_kind r a hib
      subst this
      intro hcontra
      simp only [Except.map] at hcontra
      injection hcontra with h2
      exact Abort.noConfusion h2
    | ok pr => simp [Except.map]
  · cases hib : r.decrement_byte with
    | error a =>
      have := decrement_byte_error_kind r a hib
      subst this
      intro hcontra
      simp only [Except.map] at hcontra
      injection hcontra with h2
      exact Abort.noConfusion h2
    | ok pr => simp [Except.map]
  · cases hib : r.output_byte with
    | error a =>
      have := output_byte_error_kind r a hib
      subst this
      intro hcontra
      simp only [Except.map] at hcontra
      injection hcontra with h2
      exact Abort.noConfusion h2
    | ok pr => simp [Except.map]
  · cases hib : r.input_byte with
    | error a =>
      have := input_byte_error_kind r a hib
      subst this
      intro hcontra
      simp only [Except.map] at hcontra
      injection hcontra with h2
      exact Abort.noConfusion h2
    | ok pr => simp [Except.map]
  · cases hob : r.handle_open_bracket with
    | error a =>
      have hne := handle_open_bracket_not_charNth r hlen hip
      rw [hob] at hne
      simpa [Except.map] using hne
    | ok pr => simp [Except.map]
  · cases hob : r.handle_close_bracket with
    | error a =>
      have hne := handle_close_bracket_not_charNth r hip
      rw [hob] at hne
      simpa [Except.map] using hne
    | ok pr => simp [Except.map]
  · simp

/-! ## Run-loop invariants -/

lemma RuntimeSnapshot_new_input_pointer (r : Runtime) (mpm : Nat) (e : Bool) (m : String) :
    (RuntimeSnapshot.new r mpm e m).input_pointer = r.input_pointer := rfl

lemma RuntimeSnapshot_new_is_error (r : Runtime) (mpm : Nat) (e : Bool) (m : String) :
    (RuntimeSnapshot.new r mpm e m).is_error = e := rfl

lemma dropLast_snoc (l : List RuntimeSnapshot) (a : RuntimeSnapshot) :
    (l ++ [a]).dropLast = l := by simp

lemma pairwise_snoc_input (snaps : List RuntimeSnapshot) (s : RuntimeSnapshot)
    (hpair : List.Pairwise (· ≤ ·) (snaps.map RuntimeSnapshot.input_pointer))
    (hall : ∀ t ∈ snaps, t.input_pointer ≤ s.input_pointer) :
    List.Pairwise (· ≤ ·) ((snaps ++ [s]).map RuntimeSnapshot.input_pointer) := by
  rw [List.map_append, List.pairwise_append]
  refine ⟨hpair, by simp, ?_⟩
  intro a ha b hb
  simp only [List.map_cons, List.map_nil, List.mem_singleton] at hb
  subst hb
  simp only [List.mem_map] at ha
  obtain ⟨t, ht, rfl⟩ := ha
  exact hall t ht

lemma runAux_not_memIndex :
    ∀ (fuel : Nat) (r : Runtime) (snaps : List RuntimeSnapshot) (mpm : Nat),
      r.memory_pointer < r.memory.length →
      runAux fuel r snaps mpm ≠ .error .memIndex := by
  intro fuel
  induction fuel with
  | zero => intro r snaps mpm hinv; simp [runAux]
  | succ fuel ih =>
    intro r snaps mpm hinv
    rw [runAux]
    split
    · split
      · simp
      · split
        · simp
        · rename_i c hc
          split
          · rename_i a hd
            have hne := dispatch_not_memIndex c r mpm hinv
            rw [hd] at hne
            intro hcontra
            injection hcontra with h2
            subst h2
            exact hne rfl
          · rename_i r' mpm' hd
            exact ih _ _ _ ((dispatch_ok c r mpm r' mpm' none hd).2.2 hinv)
          · rename_i r' mpm' msg hd
            exact ih _ _ _ ((dispatch_ok c r mpm r' mpm' _ hd).2.2 hinv)
          · simp
    · simp

lemma runAux_ascii_not_charNth :
    ∀ (fuel : Nat) (r : Runtime) (snaps : List RuntimeSnapshot) (mpm : Nat),
      (∀ c ∈ r.instructions, c.utf8Size = 1) →
      runAux fuel r snaps mpm ≠ .error .charNth := by
  intro fuel
  induction fuel with
  | zero => intro r snaps mpm hascii; simp [runAux]
  | succ fuel ih =>
    intro r snaps mpm hascii
    rw [runAux]
    split
    · rename_i hip
      split
      · simp
      · split
        · rename_i hnone
          exact absurd (List.get?_eq_none.mp hnone)
            (by rw [utf8Len_ascii _ hascii] at hip; omega)
        · rename_i c hc
          split
          · rename_i a hd
            have hlen : utf8Len r.instructions ≤ r.instructions.length :=
              le_of_eq (utf8Len_ascii _ hascii)
            have hip2 : r.instruction_pointer < r.instructions.length := by
              rw [utf8Len_ascii _ hascii] at hip; exact hip
            have hne := dispatch_not_charNth c r mpm hlen hip2
            rw [hd] at hne
            intro hcontra
            injection hcontra with h2
            subst h2
            exact hne rfl
          · rename_i r' mpm' hd
            refine ih _ _ _ (fun d hd2 => hascii d ?_)
            exact (dispatch_ok c r mpm r' mpm' none hd).1 ▸ hd2
          · rename_i r' mpm' msg hd
            refine ih _ _ _ (fun d hd2 => hascii d ?_)
            exact (dispatch_ok c r mpm r' mpm' _ hd).1 ▸ hd2
          · simp
    · simp

lemma runAux_input_pointer_mono :
    ∀ (fuel : Nat) (r : Runtime) (snaps : List RuntimeSnapshot) (mpm : Nat)
      (p : RuntimeProduct),
      runAux fuel r snaps mpm = .ok p →
      (∀ s ∈ snaps, s.input_pointer ≤ r.input_pointer) →
      List.Pairwise (· ≤ ·) (snaps.map RuntimeSnapshot.input_pointer) →
      List.Pairwise (· ≤ ·) (p.snapshots.map RuntimeSnapshot.input_pointer) := by
  intro fuel
  induction fuel with
  | zero => intro r snaps mpm p h hall hpair; exact absurd h (by simp [runAux])
  | succ fuel ih =>
    intro r snaps mpm p h hall hpair
    rw [runAux] at h
    split at h
    · split at h
      · injection h with h2
        subst h2
        exact pairwise_snoc_input snaps _ hpair hall
      · split at h
        · exact absurd h (by simp)
        · rename_i c hc
          split at h
          · exact absurd h (by simp)
          · rename_i r' mpm' hd
            have hle := (dispatch_ok c r mpm r' mpm' none hd).2.1
            exact ih _ _ _ _ h (fun s hs => le_trans (hall s hs) hle) hpair
          · rename_i r' mpm' msg hd
            have hle := (dispatch_ok c r mpm r' mpm' _ hd).2.1
            refine ih _ _ _ _ h ?_ ?_
            · intro s hs
              rcases List.mem_append.mp hs with hs2 | hs2
              · exact le_trans (hall s hs2) hle
              · rw [List.mem_singleton] at hs2
                subst hs2
                exact le_refl _
            · exact pairwise_snoc_input snaps _ hpair
                (fun t ht => le_trans (hall t ht) hle)
          · rename_i r' mpm' msg hd
            injection h with h2
            subst h2
            have hle := (dispatch_ok c r mpm r' mpm' _ hd).2.1
            exact pairwise_snoc_input snaps _ hpair
              (fun t ht => le_trans (hall t ht) hle)
    · injection h with h2
      subst h2
      exact hpair

lemma runAux_errors_last :
    ∀ (fuel : Nat) (r : Runtime) (snaps : List RuntimeSnapshot) (mpm : Nat)
      (p : RuntimeProduct),
      runAux fuel r snaps mpm = .ok p →
      (∀ s ∈ snaps, s.is_error = false) →
      (∀ s ∈ p.snapshots.dropLast, s.is_error = false) := by
  intro fuel
  induction fuel with
  | zero => intro r snaps mpm p h hall; exact absurd h (by simp [runAux])
  | succ fuel ih =>
    intro r snaps mpm p h hall
    rw [runAux] at h
    split at h
    · split at h
      · injection h with h2
        subst h2
        intro s hs
        rw [dropLast_snoc] at hs
        exact hall s hs
      · split at h
        · exact absurd h (by simp)
        · rename_i c hc
          split at h
          · exact absurd h (by simp)
          · rename_i r' mpm' hd
            exact ih _ _ _ _ h hall
          · rename_i r' mpm' msg hd
            refine ih _ _ _ _ h ?_
            intro s hs
            rcases List.mem_append.mp hs with hs2 | hs2
            · exact hall s hs2
            · rw [List.mem_singleton] at hs2
              subst hs2
              rfl
          · rename_i r' mpm' msg hd
            injection h with h2
            subst h2
            intro s hs
            rw [dropLast_snoc] at hs
            exact hall s hs
    · injection h with h2
      subst h2
      intro s hs
      exact hall s (List.dropLast_subset _ hs)

/-- Claim C6: `next_input_byte` is total; at or past the end of input it
returns the sentinel 255 and leaves the whole runtime (in particular the
input pointer) unchanged, otherwise it returns the byte at the input pointer
and advances it by exactly one; consequently the input pointer recorded in
the snapshots of any completed run is monotonically non-decreasing. -/
theorem C6_input_cursor :
    (∀ r : Runtime, r.input_pointer ≥ r.input.length → r.next_input_byte = (255, r)) ∧
    (∀ (r : Runtime) (h : r.input_pointer < r.input.length),
        r.next_input_byte = (r.input.get ⟨r.input_pointer, h⟩,
          { r with input_pointer := r.input_pointer + 1 })) ∧
    (∀ r : Runtime, r.input_pointer ≤ (r.next_input_byte).2.input_pointer) ∧
    (∀ (fuel : Nat) (r : Runtime) (p : RuntimeProduct),
        Runtime.run fuel r = .ok p →
        List.Pairwise (· ≤ ·) (p.snapshots.map RuntimeSnapshot.input_pointer)) := by
  refine ⟨fun r h => ?_, fun r h => ?_, fun r => ?_, fun fuel r p h => ?_⟩
  · unfold Runtime.next_input_byte
    rw [dif_pos h]
  · unfold Runtime.next_input_byte
    rw [dif_neg (by omega)]
  · unfold Runtime.next_input_byte
    split
    · exact le_refl _
    · show r.input_pointer ≤ r.input_pointer + 1
      omega
  · exact runAux_input_pointer_mono fuel r [] 0 p h (by simp) (by simp)

theorem C6_input_cursor_witness :
    (Runtime.new [','] []).input_pointer ≥ (Runtime.new [','] []).input.length ∧
    (Runtime.new [','] []).next_input_byte = (255, Runtime.new [','] []) ∧
    List.Pairwise (· ≤ ·)
      ((RuntimeProduct.mk
          [⟨[7], 0, 0, 1, [], false, "copied byte from input to memory"⟩,
           ⟨[255], 0, 1, 1, [], false, "copied byte from input to memory"⟩]
          [] 2).snapshots.map RuntimeSnapshot.input_pointer) :=
  ⟨by decide, C6_input_cursor.1 (Runtime.new [','] []) (by decide),
    C6_input_cursor.2.2.2 5 (Runtime.new [',', ','] [7])
      (RuntimeProduct.mk
        [⟨[7], 0, 0, 1, [], false, "copied byte from input to memory"⟩,
         ⟨[255], 0, 1, 1, [], false, "copied byte from input to memory"⟩]
        [] 2) rfl⟩

/-- Claim C7: the tape invariant `memory_pointer < memory.length` holds for
every freshly constructed runtime and is preserved by every successful
dispatch; under the invariant no dispatch aborts on a memory access
(`memIndex`), and a whole run from an invariant state never aborts on a
memory access, so every cell read and write of the increment, decrement,
output and input handlers is in bounds. -/
theorem C7_tape_invariant :
    (∀ (i : List Char) (inp : List Nat) (el ml : Nat),
        (Runtime.with_limits i inp el ml).memory_pointer <
          (Runtime.with_limits i inp el ml).memory.length) ∧
    (∀ (c : Char) (r : Runtime) (mpm : Nat) (r' : Runtime) (mpm' : Nat)
        (res : Option RuntimeResult),
        r.memory_pointer < r.memory.length →
        Runtime.dispatch c r mpm = .ok (r', mpm', res) →
        r'.memory_pointer < r'.memory.length) ∧
    (∀ (c : Char) (r : Runtime) (mpm : Nat), r.memory_pointer < r.memory.length →
        Runtime.dispatch c r mpm ≠ .error .memIndex) ∧
    (∀ (fuel : Nat) (r : Runtime) (snaps : List RuntimeSnapshot) (mpm : Nat),
        r.memory_pointer < r.memory.length →
        runAux fuel r snaps mpm ≠ .error .memIndex) :=
  ⟨fun _ _ _ _ => Nat.zero_lt_one,
    fun c r mpm r' mpm' res hinv hd => (dispatch_ok c r mpm r' mpm' res hd).2.2 hinv,
    fun c r mpm hinv => dispatch_not_memIndex c r mpm hinv,
    runAux_not_memIndex⟩

theorem C7_tape_invariant_witness :
    (Runtime.new ['+'] []).memory_pointer < (Runtime.new ['+'] []).memory.length ∧
    runAux 3 (Runtime.new ['+'] []) [] 0 ≠ .error .memIndex :=
  ⟨by decide, C7_tape_invariant.2.2.2 3 (Runtime.new ['+'] []) [] 0 (by decide)⟩

/-- Claim C8: cell arithmetic wraps modulo 256 and never fails: increment of
a cell holding 255 produces 0 and decrement of a cell holding 0 produces
255, both with a success status naming the wrap; in general both handlers
store `(b + 1) % 256` resp. `(b - 1) % 256` and always return `Ok`, so
neither can ever produce an error snapshot. -/
theorem C8_cell_wraparound :
    (∀ r : Runtime, r.memory.get? r.memory_pointer = some 255 →
        r.increment_byte = .ok ({ r with memory := r.memory.set r.memory_pointer 0 },
          .ok "wrapped overflow byte back to 0x00")) ∧
    (∀ r : Runtime, r.memory.get? r.memory_pointer = some 0 →
        r.decrement_byte = .ok ({ r with memory := r.memory.set r.memory_pointer 255 },
          .ok "wrapped overflow byte back to 0xFF")) ∧
    (∀ (r : Runtime) (b : Nat), r.memory.get? r.memory_pointer = some b → b ≤ 255 →
        (∃ r' msg, r.increment_byte = .ok (r', Except.ok msg) ∧
          r'.memory = r.memory.set r.memory_pointer ((b + 1) % 256)) ∧
        (∃ r' msg, r.decrement_byte = .ok (r', Except.ok msg) ∧
          r'.memory = r.memory.set r.memory_pointer ((b + 255) % 256))) ∧
    (∀ (r r' : Runtime) (res : RuntimeResult), r.increment_byte = .ok (r', res) →
        ∃ msg, res = Except.ok msg) ∧
    (∀ (r r' : Runtime) (res : RuntimeResult), r.decrement_byte = .ok (r', res) →
        ∃ msg, res = Except.ok msg) := by
  refine ⟨fun r h => ?_, fun r h => ?_, fun r b h hb => ⟨?_, ?_⟩,
    fun r r' res h => (increment_byte_ok r r' res h).2.2.2.2,
    fun r r' res h => (decrement_byte_ok r r' res h).2.2.2.2⟩
  · unfold Runtime.increment_byte
    split
    · rename_i heq
      rw [heq] at h
      exact absurd h (by simp)
    · rename_i b heq
      rw [heq] at h
      injection h with h2
      subst h2
      rw [if_neg (by omega)]
  · unfold Runtime.decrement_byte
    split
    · rename_i heq
      rw [heq] at h
      exact absurd h (by simp)
    · rename_i b heq
      rw [heq] at h
      injection h with h2
      subst h2
      rw [if_neg (by omega)]
  · unfold Runtime.increment_byte
    split
    · rename_i heq
      rw [heq] at h
      exact absurd h (by simp)
    · rename_i b2 heq
      rw [heq] at h
      injection h with h2
      subst h2
      by_cases hlt : b2 < 255
      · rw [if_pos hlt]
        refine ⟨_, _, rfl, ?_⟩
        rw [Nat.mod_eq_of_lt (by omega : b2 + 1 < 256)]
      · rw [if_neg hlt]
        refine ⟨_, _, rfl, ?_⟩
        have hb255 : b2 = 255 := by omega
        subst hb255
        norm_num
  · unfold Runtime.decrement_byte
    split
    · rename_i heq
      rw [heq] at h
      exact absurd h (by simp)
    · rename_i b2 heq
      rw [heq] at h
      injection h with h2
      subst h2
      by_cases hpos : b2 > 0
      · rw [if_pos hpos]
        refine ⟨_, _, rfl, ?_⟩
        have hmod : (b2 + 255) % 256 = b2 - 1 := by
          have h1 : b2 + 255 = 256 + (b2 - 1) := by omega
          rw [h1, Nat.add_mod_left]
          exact Nat.mod_eq_of_lt (by omega)
        rw [hmod]
      · rw [if_neg hpos]
        refine ⟨_, _, rfl, ?_⟩
        have hb0 : b2 = 0 := by omega
        subst hb0
        norm_num

theorem C8_cell_wraparound_witness :
    (Runtime.mk ['+'] 0 [] 0 [255] 0 [] 0 0).memory.get?
        (Runtime.mk ['+'] 0 [] 0 [255] 0 [] 0 0).memory_pointer = some 255 ∧
    (Runtime.mk ['+'] 0 [] 0 [255] 0 [] 0 0).increment_byte =
      .ok ({ Runtime.mk ['+'] 0 [] 0 [255] 0 [] 0 0 with
          memory := (Runtime.mk ['+'] 0 [] 0 [255] 0 [] 0 0).memory.set
            (Runtime.mk ['+'] 0 [] 0 [255] 0 [] 0 0).memory_pointer 0 },
        .ok "wrapped overflow byte back to 0x00") :=
  ⟨rfl, C8_cell_wraparound.1 (Runtime.mk ['+'] 0 [] 0 [255] 0 [] 0 0) rfl⟩

/-- Claim C9: failures are fatal: in the snapshot sequence of any completed
run, every snapshot before the last one is an ok snapshot, so an error
snapshot can only be the final one and nothing is ever appended after it. -/
theorem C9_errors_are_final :
    ∀ (fuel : Nat) (r : Runtime) (p : RuntimeProduct),
      Runtime.run fuel r = .ok p →
      p.snapshots.dropLast.all (fun s => !s.is_error) = true := by
  intro fuel r p h
  rw [List.all_eq_true]
  intro s hs
  have he := runAux_errors_last fuel r [] 0 p h (by simp) s hs
  simp [he]

theorem C9_errors_are_final_witness :
    (RuntimeProduct.mk
        [⟨[1], 0, 0, 0, [], false, "incremented byte by 1"⟩,
         ⟨[1], 0, 1, 0, [], true, "can\x27t decrement pointer sub-0!"⟩]
        [] 2).snapshots.dropLast.all (fun s => !s.is_error) = true :=
  C9_errors_are_final 5 (Runtime.new ['+', '<'] [])
    (RuntimeProduct.mk
      [⟨[1], 0, 0, 0, [], false, "incremented byte by 1"⟩,
       ⟨[1], 0, 1, 0, [], true, "can\x27t decrement pointer sub-0!"⟩]
      [] 2) rfl

/-- Claim C10: for a program whose characters are all single-byte (ASCII),
the run loop's character lookup (and those of both bracket seeks) never
fails, because every bound compares the instruction pointer against the
byte length, which then equals the character count; for a program with a
multi-byte character the lookup can fail, as the 2-byte program `é` shows. -/
theorem C10_ascii_lookup_total :
    (∀ (fuel : Nat) (r : Runtime) (snaps : List RuntimeSnapshot) (mpm : Nat),
        (∀ c ∈ r.instructions, c.utf8Size = 1) →
        runAux fuel r snaps mpm ≠ .error .charNth) ∧
    Runtime.run 3 (Runtime.new [Char.ofNat 233] []) = .error .charNth :=
  ⟨runAux_ascii_not_charNth, rfl⟩

theorem C10_ascii_lookup_total_witness :
    (∀ c ∈ (Runtime.new ['+'] []).instructions, c.utf8Size = 1) ∧
    runAux 3 (Runtime.new ['+'] []) [] 0 ≠ .error .charNth :=
  ⟨by decide, C10_ascii_lookup_total.1 3 (Runtime.new ['+'] []) [] 0 (by decide)⟩

end Forkengine
